import Mathlib

/-!
Verification of the size-resolver / submit-confirm client logic and the
on-chain counter program of this repository, as a shallow embedding in Lean.

Bytes are modelled as natural numbers, addresses (Solana pubkeys) as
32-element byte lists, and the remote ledger as a partial map from address
to account record.  The RPC-driven loops of the test harness are modelled
as fuel-indexed functions over oracles describing the ledger's answers,
producing an event trace alongside their result.
-/

namespace CuSize

/-- A 32-byte account address. -/
abbrev Pubkey := List Nat

/-- Account record as returned by the ledger node: owner, raw data bytes,
lamport balance. -/
structure Account where
  owner : Pubkey
  data : List Nat
  lamports : Nat

/-- The immutable BPF loader's id, the 32 bytes of
BPFLoader2111111111111111111111111111111111. -/
def bpf_loader_id : Pubkey :=
  [2, 168, 246, 145, 78, 136, 161, 110, 57, 90, 225, 40, 148, 143, 250, 105,
   86, 147, 55, 104, 24, 221, 71, 67, 82, 33, 243, 198, 0, 0, 0, 0]

/-- The upgradeable BPF loader's id, the 32 bytes of
BPFLoaderUpgradeab1e11111111111111111111111. -/
def bpf_loader_upgradeable_id : Pubkey :=
  [2, 168, 246, 145, 78, 136, 161, 176, 226, 16, 21, 62, 247, 99, 174, 43,
   0, 194, 185, 61, 22, 193, 36, 210, 192, 83, 122, 16, 4, 128, 0, 0]

/-- Modelled from the spec: the closed, tag-discriminated loader-state
variant set of the upgradeable loader (solana-sdk's UpgradeableLoaderState,
a dependency whose source is not part of this repository).  Variants and
fields follow the spec's data model section. -/
inductive UpgradeableLoaderState where
  | Uninitialized : UpgradeableLoaderState
  | Buffer (authority_address : Option Pubkey) : UpgradeableLoaderState
  | Program (programdata_address : Pubkey) : UpgradeableLoaderState
  | ProgramData (slot : Nat) (upgrade_authority_address : Option Pubkey) :
      UpgradeableLoaderState
deriving DecidableEq

/-- Read a little-endian u32 from the front of a byte list. -/
def readU32LE : List Nat → Option (Nat × List Nat)
  | b0 :: b1 :: b2 :: b3 :: rest =>
      some (b0 + 256 * (b1 + 256 * (b2 + 256 * b3)), rest)
  | _ => none

/-- Read a little-endian u64 from the front of a byte list. -/
def readU64LE : List Nat → Option (Nat × List Nat)
  | b0 :: b1 :: b2 :: b3 :: b4 :: b5 :: b6 :: b7 :: rest =>
      some (b0 + 256 * (b1 + 256 * (b2 + 256 * (b3 + 256 * (b4 + 256 *
        (b5 + 256 * (b6 + 256 * b7)))))), rest)
  | _ => none

/-- Read a 32-byte pubkey from the front of a byte list. -/
def readPubkey (bs : List Nat) : Option (Pubkey × List Nat) :=
  if 32 ≤ bs.length then some (bs.take 32, bs.drop 32) else none

/-- Read a bincode Option of pubkey: one tag byte (0 = None, 1 = Some)
followed by the payload when present. -/
def readOptionPubkey : List Nat → Option (Option Pubkey × List Nat)
  | 0 :: rest => some (none, rest)
  | 1 :: rest => (readPubkey rest).map (fun p => (some p.1, p.2))
  | _ => none

/-- Modelled from the spec: bincode deserialization of an
UpgradeableLoaderState value (the layout of the dependency crates bincode
and solana-sdk, not part of this repository): a fixed-width little-endian
u32 discriminant selects the variant, then the variant's fixed-offset
fields are read; trailing bytes are allowed. -/
def deserializeLoaderState (bs : List Nat) : Option UpgradeableLoaderState :=
  match readU32LE bs with
  | none => none
  | some (tag, rest) =>
    if tag = 0 then some UpgradeableLoaderState.Uninitialized
    else if tag = 1 then
      (readOptionPubkey rest).map (fun p => UpgradeableLoaderState.Buffer p.1)
    else if tag = 2 then
      (readPubkey rest).map (fun p => UpgradeableLoaderState.Program p.1)
    else if tag = 3 then
      match readU64LE rest with
      | none => none
      | some (slot, rest2) =>
          (readOptionPubkey rest2).map
            (fun p => UpgradeableLoaderState.ProgramData slot p.1)
    else none

/-- Modelled from the spec: the statically known size of the ProgramData
metadata header (solana-sdk's
UpgradeableLoaderState::size_of_programdata_metadata()):
4 discriminant bytes + 8 slot bytes + 1 option tag + 32 pubkey bytes = 45. -/
def size_of_programdata_metadata : Nat := 45

/-- The distinct error outcomes of get_program_size, one per distinct
error string in the source. -/
inductive GPSError where
  | accountNotFound : GPSError
  | deserializeError : GPSError
  | notAProgramAccount : GPSError
  | invalidProgramDataAccount : GPSError
  | notABpfProgram : GPSError
deriving DecidableEq

/-- The spec's UnsupportedOwner error corresponds to the source's
"Not a BPF program" error string. -/
def UnsupportedOwner : GPSError := GPSError.notABpfProgram

/-- The spec's InvalidAccountState error covers the source's two
variant-mismatch error strings, "Not a program account" and
"Invalid program data account". -/
def isInvalidAccountState : GPSError → Bool
  | GPSError.notAProgramAccount => true
  | GPSError.invalidProgramDataAccount => true
  | _ => false

/-- Outcome of running get_program_size: a size pair, an error, or an
abort of the computation by the unguarded usize subtraction underflowing
(Rust's checked debug-build subtraction). -/
inductive Outcome where
  | ok (sizes : Nat × Nat) : Outcome
  | err (e : GPSError) : Outcome
  | underflowAbort : Outcome
deriving DecidableEq

/-- Observable ledger interactions of get_program_size: account fetches
and decodes of account data. -/
inductive GPSEvent where
  | fetchAccount (address : Pubkey) : GPSEvent
  | decodeData (bytes : List Nat) : GPSEvent
deriving DecidableEq

/-- Whether an event is a decode of account data bytes. -/
def GPSEvent.isDecode : GPSEvent → Bool
  | GPSEvent.decodeData _ => true
  | _ => false

/-- Embedding of the source's get_program_size over a ledger modelled as a
partial map from address to account.  Branches on the owner: immutable
loader returns the raw data length twice; upgradeable loader decodes the
account, requires the Program variant, fetches and decodes the programdata
account, requires the ProgramData variant, and subtracts the metadata
header size from its data length.  The unguarded subtraction is rendered
with an explicit underflow branch, since the source's usize subtraction
aborts when the length is below the header size.  Returns the outcome
together with the trace of fetches and decodes performed. -/
def get_program_size (accounts : Pubkey → Option Account)
    (program_pubkey : Pubkey) : Outcome × List GPSEvent :=
  match accounts program_pubkey with
  | none => (Outcome.err GPSError.accountNotFound,
      [GPSEvent.fetchAccount program_pubkey])
  | some program_account =>
    let ev0 := [GPSEvent.fetchAccount program_pubkey]
    if program_account.owner = bpf_loader_id then
      (Outcome.ok (program_account.data.length, program_account.data.length),
        ev0)
    else if program_account.owner = bpf_loader_upgradeable_id then
      let ev1 := ev0 ++ [GPSEvent.decodeData program_account.data]
      match deserializeLoaderState program_account.data with
      | none => (Outcome.err GPSError.deserializeError, ev1)
      | some (UpgradeableLoaderState.Program programdata_address) =>
        let ev2 := ev1 ++ [GPSEvent.fetchAccount programdata_address]
        match accounts programdata_address with
        | none => (Outcome.err GPSError.accountNotFound, ev2)
        | some program_data_account =>
          let ev3 := ev2 ++ [GPSEvent.decodeData program_data_account.data]
          match deserializeLoaderState program_data_account.data with
          | none => (Outcome.err GPSError.deserializeError, ev3)
          | some (UpgradeableLoaderState.ProgramData _ _) =>
            if program_data_account.data.length < size_of_programdata_metadata
            then (Outcome.underflowAbort, ev3)
            else (Outcome.ok
                (program_data_account.data.length - size_of_programdata_metadata,
                 program_data_account.data.length), ev3)
          | some _ => (Outcome.err GPSError.invalidProgramDataAccount, ev3)
      | some _ => (Outcome.err GPSError.notAProgramAccount, ev1)
    else (Outcome.err GPSError.notABpfProgram, ev0)

/-- Little-endian interpretation of a byte list as an unsigned integer. -/
def u64_from_le_bytes (bs : List Nat) : Nat :=
  bs.foldr (fun b acc => b + 256 * acc) 0

/-- The counter decode of process_instruction: instruction_data.get(..8)
yields the first 8 bytes when the payload has at least 8, else nothing;
the slice is read little-endian, defaulting to 0. -/
def decodeCounter (instruction_data : List Nat) : Nat :=
  ((if 8 ≤ instruction_data.length then some (instruction_data.take 8)
    else none).map u64_from_le_bytes).getD 0

/-- Result of a program invocation: the ProgramResult, the log lines
emitted, and the account list as left behind by the invocation. -/
structure ProgramOutput where
  result : Except Nat Unit
  log : List String
  accountsOut : List Account

/-- Embedding of the source's process_instruction: decode the counter from
the instruction data, log it, succeed; the accounts are untouched. -/
def process_instruction (_program_id : Pubkey) (accounts : List Account)
    (instruction_data : List Nat) : ProgramOutput :=
  let counter := decodeCounter instruction_data
  { result := Except.ok ()
    log := ["Count: " ++ toString counter]
    accountsOut := accounts }

/-- Landed-transaction details as used by the verifier: the metadata's
optional compute-units-consumed field. -/
structure TxDetails where
  computeUnitsConsumed : Option Nat
deriving DecidableEq

/-- Observable steps of the confirmation-verification loop. -/
inductive VEvent where
  | lookupTx : VEvent
  | sleepMs (ms : Nat) : VEvent
deriving DecidableEq

/-- Embedding of the source's confirmation retry loop: while retries > 0,
look the transaction up; on success store the details and break; on
failure sleep 50 ms and decrement retries.  The oracle gives the result of
the k-th lookup; the function returns the details found (if any) together
with the trace of lookups and sleeps. -/
def verifyLoop (lookup : Nat → Option TxDetails) :
    Nat → Nat → Option TxDetails × List VEvent
  | 0, _ => (none, [])
  | retries + 1, k =>
    match lookup k with
    | some details => (some details, [VEvent.lookupTx])
    | none =>
      let r := verifyLoop lookup retries (k + 1)
      (r.1, VEvent.lookupTx :: VEvent.sleepMs 50 :: r.2)

/-- The verifier for one submission record: the retry loop started with
retries = 10 and no lookups performed yet. -/
def verify (lookup : Nat → Option TxDetails) : Option TxDetails × List VEvent :=
  verifyLoop lookup 10 0

/-- The found flag of the Confirmation Outcome: whether any lookup
succeeded before the retry bound was exhausted. -/
def confirmationFound (lookup : Nat → Option TxDetails) : Bool :=
  (verify lookup).1.isSome

/-- The event trace of r consecutive failed lookup attempts: each failed
lookup is followed by a 50 ms sleep. -/
def failTrace : Nat → List VEvent
  | 0 => []
  | r + 1 => VEvent.lookupTx :: VEvent.sleepMs 50 :: failTrace r

/-- Observable steps of the funding poll loop. -/
inductive FEvent where
  | confirmTx : FEvent
  | getBalance (b : Option Nat) : FEvent
  | sleepMs (ms : Nat) : FEvent
deriving DecidableEq

/-- The break condition of one funding-poll iteration: the confirmation
check returned Ok, the balance read returned Ok, and the balance is
strictly positive; the broken-out-with balance is returned. -/
def fundingBreak (confirmOk : Bool) (bal : Option Nat) : Option Nat :=
  if confirmOk then
    match bal with
    | some b => if 0 < b then some b else none
    | none => none
  else none

/-- The ledger interactions of one funding-poll iteration: the
confirmation check, then the balance read when the check returned Ok. -/
def fundingIterEvents (confirmOk : Bool) (bal : Option Nat) : List FEvent :=
  if confirmOk then [FEvent.confirmTx, FEvent.getBalance bal]
  else [FEvent.confirmTx]

/-- Embedding of the source's airdrop poll loop, fuel-indexed: each
iteration checks confirmation and balance via the oracles (indexed by the
iteration number k), breaks when the balance is positive, and otherwise
sleeps 100 ms and retries.  Returns some balance when the loop broke
within the fuel, none while it is still running, with the event trace. -/
def fundingLoop (confirm : Nat → Bool) (bal : Nat → Option Nat) :
    Nat → Nat → Option Nat × List FEvent
  | 0, _ => (none, [])
  | fuel + 1, k =>
    match fundingBreak (confirm k) (bal k) with
    | some b => (some b, fundingIterEvents (confirm k) (bal k))
    | none =>
      let r := fundingLoop confirm bal fuel (k + 1)
      (r.1, fundingIterEvents (confirm k) (bal k) ++ FEvent.sleepMs 100 :: r.2)

/-- An instruction: target program, payload bytes, account list. -/
structure Instruction where
  program_id : Pubkey
  data : List Nat
  accounts : List Pubkey
deriving DecidableEq

/-- A transaction as built by the batch loop: one instruction, the fee
payer, and the blockhash it was signed against. -/
structure TransactionRec where
  instruction : Instruction
  payer : Pubkey
  blockhash : Nat
deriving DecidableEq

/-- The 8-byte little-endian encoding of a u64 counter value. -/
def u64_to_le_bytes (n : Nat) : List Nat :=
  (List.range 8).map (fun i => n / 256 ^ i % 256)

/-- The transaction the batch loop builds for index i: a single
instruction carrying the 8-byte little-endian encoding of i, no accounts,
the shared payer and blockhash. -/
def mkCounterTx (program_pubkey payer : Pubkey) (blockhash : Nat) (i : Nat) :
    TransactionRec :=
  { instruction :=
      { program_id := program_pubkey, data := u64_to_le_bytes i, accounts := [] }
    payer := payer
    blockhash := blockhash }

/-- Observable ledger interactions of the batch submitter. -/
inductive BEvent where
  | getLatestBlockhash : BEvent
  | sendTransaction (tx : TransactionRec) : BEvent
deriving DecidableEq

/-- Embedding of the source's send loop: for each index starting at i,
build the counter transaction against the shared blockhash and send it;
a returned signature is recorded as (index, signature), a send failure is
only logged.  The oracle maps each transaction to its signature or a
failure. -/
def sendLoop (send : TransactionRec → Option Nat) (pk payer : Pubkey)
    (bh : Nat) : Nat → Nat → List (Nat × Nat) × List BEvent
  | 0, _ => ([], [])
  | n + 1, i =>
    let tx := mkCounterTx pk payer bh i
    let r := sendLoop send pk payer bh n (i + 1)
    match send tx with
    | some sig => ((i, sig) :: r.1, BEvent.sendTransaction tx :: r.2)
    | none => (r.1, BEvent.sendTransaction tx :: r.2)

/-- Embedding of the batch-submission phase: fetch the latest blockhash
once, then run the send loop for indices 0..99 against it.  Returns the
submission records and the full event trace. -/
def submitBatch (latestBlockhash : Nat) (send : TransactionRec → Option Nat)
    (pk payer : Pubkey) : List (Nat × Nat) × List BEvent :=
  let bh := latestBlockhash
  let r := sendLoop send pk payer bh 100 0
  (r.1, BEvent.getLatestBlockhash :: r.2)

/-! Concrete fixtures used to instantiate the theorems below. -/

/-- A concrete program address. -/
def pkA : Pubkey := List.replicate 32 7

/-- A concrete programdata address. -/
def pkB : Pubkey := List.replicate 32 9

/-- An address owned by neither loader. -/
def otherOwner : Pubkey := List.replicate 32 0

/-- An account held by the immutable loader. -/
def imm_acct : Account :=
  { owner := bpf_loader_id, data := [1, 2, 3], lamports := 0 }

/-- A ledger holding only the immutable-loader account at pkA. -/
def imm_env : Pubkey → Option Account := fun q =>
  if q = pkA then some imm_acct else none

/-- An account owned by neither loader. -/
def other_acct : Account :=
  { owner := otherOwner, data := [1, 2, 3], lamports := 0 }

/-- A ledger holding only the foreign-owned account at pkA. -/
def other_env : Pubkey → Option Account := fun q =>
  if q = pkA then some other_acct else none

/-- An upgradeable-loader account whose state is the Program variant
pointing at pkB. -/
def upg_prog_acct : Account :=
  { owner := bpf_loader_upgradeable_id
    data := [2, 0, 0, 0] ++ pkB
    lamports := 0 }

/-- A programdata account with a well-formed ProgramData record and 50
bytes of data (45 metadata + 5 bytecode). -/
def upg_pd_acct : Account :=
  { owner := bpf_loader_upgradeable_id
    data := [3, 0, 0, 0] ++ List.replicate 8 0 ++ [0] ++ List.replicate 37 9
    lamports := 0 }

/-- A ledger holding the Program pointer at pkA and the well-formed
programdata account at pkB. -/
def upg_env : Pubkey → Option Account := fun q =>
  if q = pkA then some upg_prog_acct
  else if q = pkB then some upg_pd_acct else none

/-- 13 bytes decoding to ProgramData with slot 0 and no upgrade
authority: discriminant 3, zero slot, option tag 0. -/
def pd13 : List Nat := [3, 0, 0, 0, 0, 0, 0, 0, 0, 0, 0, 0, 0]

/-- A programdata account shorter than the metadata header. -/
def cex_pd_acct : Account :=
  { owner := bpf_loader_upgradeable_id, data := pd13, lamports := 0 }

/-- A ledger holding the Program pointer at pkA and the too-short
programdata account at pkB. -/
def cex_env : Pubkey → Option Account := fun q =>
  if q = pkA then some upg_prog_acct
  else if q = pkB then some cex_pd_acct else none

/-- An upgradeable-loader account whose state decodes to the
Uninitialized variant. -/
def upg_uninit_acct : Account :=
  { owner := bpf_loader_upgradeable_id, data := [0, 0, 0, 0], lamports := 0 }

/-- A ledger holding the Uninitialized upgradeable-loader account at
pkA. -/
def mismatch_env : Pubkey → Option Account := fun q =>
  if q = pkA then some upg_uninit_acct else none

/-! Theorems, one per claim. -/

/-- The two loader identities are distinct addresses. -/
lemma loader_ids_ne : bpf_loader_upgradeable_id ≠ bpf_loader_id := by decide

/-- C3: for every instruction payload, the counter decoded by
process_instruction (and logged by it) equals the little-endian unsigned
64-bit interpretation of the first 8 bytes when the payload length is at
least 8, trailing bytes ignored, and equals exactly 0 when the payload
length is below 8, including empty. -/
theorem process_instruction_counter_decode (program_id : Pubkey)
    (accounts : List Account) (d extra : List Nat) :
    (process_instruction program_id accounts d).log =
      ["Count: " ++ toString (decodeCounter d)]
    ∧ (8 ≤ d.length → decodeCounter d = u64_from_le_bytes (d.take 8))
    ∧ (8 ≤ d.length → decodeCounter (d ++ extra) = decodeCounter d)
    ∧ (d.length < 8 → decodeCounter d = 0) := by
  refine ⟨rfl, fun h => ?_, fun h => ?_, fun h => ?_⟩
  · simp [decodeCounter, h]
  · have h' : 8 ≤ d.length + extra.length := by omega
    simp [decodeCounter, h, h', List.take_append_of_le_length h]
  · have h' : ¬ 8 ≤ d.length := by omega
    simp [decodeCounter, h']

/-- C3 witness: the decode theorem applied to the spec's scenario
payloads, a 9-byte payload with counter 5 and a short payload. -/
theorem process_instruction_counter_decode_witness :
    decodeCounter [5, 0, 0, 0, 0, 0, 0, 0, 99] =
      u64_from_le_bytes (List.take 8 [5, 0, 0, 0, 0, 0, 0, 0, 99])
    ∧ u64_from_le_bytes (List.take 8 [5, 0, 0, 0, 0, 0, 0, 0, 99]) = 5
    ∧ decodeCounter [5] = 0 := by
  exact ⟨(process_instruction_counter_decode [] [] [5, 0, 0, 0, 0, 0, 0, 0, 99]
      []).2.1 (by decide), by decide,
    (process_instruction_counter_decode [] [] [5] []).2.2.2 (by decide)⟩

/-- C9: for every program id, accounts slice and payload of arbitrary
length, process_instruction succeeds, leaves the accounts untouched, and
its result and log do not depend on the accounts. -/
theorem process_instruction_always_ok (program_id : Pubkey)
    (accounts accounts' : List Account) (d : List Nat) :
    (process_instruction program_id accounts d).result = Except.ok ()
    ∧ (process_instruction program_id accounts d).accountsOut = accounts
    ∧ (process_instruction program_id accounts d).log =
        (process_instruction program_id accounts' d).log
    ∧ (process_instruction program_id accounts d).result =
        (process_instruction program_id accounts' d).result :=
  ⟨rfl, rfl, rfl, rfl⟩

/-- C7: on an account owned by the immutable loader, get_program_size
returns both sizes equal to the raw data length, and its trace holds no
decode of the data bytes. -/
theorem get_program_size_immutable_loader (accounts : Pubkey → Option Account)
    (pk : Pubkey) (a : Account) (hfetch : accounts pk = some a)
    (howner : a.owner = bpf_loader_id) :
    get_program_size accounts pk =
      (Outcome.ok (a.data.length, a.data.length), [GPSEvent.fetchAccount pk])
    ∧ ∀ e ∈ (get_program_size accounts pk).2, e.isDecode = false := by
  have h1 : get_program_size accounts pk =
      (Outcome.ok (a.data.length, a.data.length), [GPSEvent.fetchAccount pk]) := by
    simp [get_program_size, hfetch, howner]
  refine ⟨h1, ?_⟩
  rw [h1]
  intro e he
  simp only [List.mem_singleton] at he
  subst he
  rfl

/-- C7 witness: the immutable-loader theorem at the concrete fixture. -/
theorem get_program_size_immutable_loader_witness :
    get_program_size imm_env pkA =
      (Outcome.ok (imm_acct.data.length, imm_acct.data.length),
        [GPSEvent.fetchAccount pkA]) :=
  (get_program_size_immutable_loader imm_env pkA imm_acct rfl rfl).1

/-- C6: on an account owned by neither loader, get_program_size fails
with the UnsupportedOwner error ("Not a BPF program") and its trace holds
no decode of the data bytes. -/
theorem get_program_size_unsupported_owner (accounts : Pubkey → Option Account)
    (pk : Pubkey) (a : Account) (hfetch : accounts pk = some a)
    (h1 : a.owner ≠ bpf_loader_id) (h2 : a.owner ≠ bpf_loader_upgradeable_id) :
    get_program_size accounts pk =
      (Outcome.err UnsupportedOwner, [GPSEvent.fetchAccount pk])
    ∧ ∀ e ∈ (get_program_size accounts pk).2, e.isDecode = false := by
  have heq : get_program_size accounts pk =
      (Outcome.err UnsupportedOwner, [GPSEvent.fetchAccount pk]) := by
    simp [get_program_size, hfetch, h1, h2, UnsupportedOwner]
  refine ⟨heq, ?_⟩
  rw [heq]
  intro e he
  simp only [List.mem_singleton] at he
  subst he
  rfl

/-- C6 witness: the unsupported-owner theorem at the concrete fixture. -/
theorem get_program_size_unsupported_owner_witness :
    get_program_size other_env pkA =
      (Outcome.err UnsupportedOwner, [GPSEvent.fetchAccount pkA]) :=
  (get_program_size_unsupported_owner other_env pkA other_acct rfl
    (by decide) (by decide)).1

/-- C5: on an upgradeable-loader-owned account, a first decode yielding a
variant other than Program fails with "Not a program account", and a
programdata decode yielding a variant other than ProgramData fails with
"Invalid program data account"; both are InvalidAccountState errors and
both differ from the UnsupportedOwner error. -/
theorem get_program_size_variant_mismatch (accounts : Pubkey → Option Account)
    (pk : Pubkey) (a : Account) (hfetch : accounts pk = some a)
    (howner : a.owner = bpf_loader_upgradeable_id) :
    (∀ s, deserializeLoaderState a.data = some s →
        (∀ pda, s ≠ UpgradeableLoaderState.Program pda) →
        (get_program_size accounts pk).1 = Outcome.err GPSError.notAProgramAccount)
    ∧ (∀ pda pa s2, deserializeLoaderState a.data =
          some (UpgradeableLoaderState.Program pda) →
        accounts pda = some pa →
        deserializeLoaderState pa.data = some s2 →
        (∀ slot auth, s2 ≠ UpgradeableLoaderState.ProgramData slot auth) →
        (get_program_size accounts pk).1 =
          Outcome.err GPSError.invalidProgramDataAccount)
    ∧ isInvalidAccountState GPSError.notAProgramAccount = true
    ∧ isInvalidAccountState GPSError.invalidProgramDataAccount = true
    ∧ GPSError.notAProgramAccount ≠ UnsupportedOwner
    ∧ GPSError.invalidProgramDataAccount ≠ UnsupportedOwner := by
  have hne : a.owner ≠ bpf_loader_id := by rw [howner]; decide
  refine ⟨?_, ?_, rfl, rfl, by decide, by decide⟩
  · intro s hdec hs
    cases s with
    | Program pda => exact absurd rfl (hs pda)
    | Uninitialized => simp [get_program_size, hfetch, hne, howner, hdec, loader_ids_ne]
    | Buffer x => simp [get_program_size, hfetch, hne, howner, hdec, loader_ids_ne]
    | ProgramData slot auth =>
        simp [get_program_size, hfetch, hne, howner, hdec, loader_ids_ne]
  · intro pda pa s2 hdec hfetch2 hdec2 hs2
    cases s2 with
    | ProgramData slot auth => exact absurd rfl (hs2 slot auth)
    | Uninitialized =>
        simp [get_program_size, hfetch, hne, howner, hdec, hfetch2, hdec2, loader_ids_ne]
    | Buffer x =>
        simp [get_program_size, hfetch, hne, howner, hdec, hfetch2, hdec2, loader_ids_ne]
    | Program q =>
        simp [get_program_size, hfetch, hne, howner, hdec, hfetch2, hdec2, loader_ids_ne]

/-- C5 witness: the variant-mismatch theorem at an upgradeable-loader
account decoding to the Uninitialized variant. -/
theorem get_program_size_variant_mismatch_witness :
    (get_program_size mismatch_env pkA).1 =
      Outcome.err GPSError.notAProgramAccount
    ∧ GPSError.notAProgramAccount ≠ UnsupportedOwner := by
  have h := get_program_size_variant_mismatch mismatch_env pkA upg_uninit_acct
    rfl rfl
  exact ⟨h.1 UpgradeableLoaderState.Uninitialized rfl
      (fun pda hc => UpgradeableLoaderState.noConfusion hc),
    h.2.2.2.2.1⟩

/-- C1 (amended): on an upgradeable-loader-owned account decoding to
Program, whose programdata account decodes to ProgramData and has data at
least as long as the metadata header, get_program_size returns the
programdata length minus the 45-byte header as bytecode size and the
programdata length as total size. -/
theorem get_program_size_upgradeable (accounts : Pubkey → Option Account)
    (pk : Pubkey) (a pa : Account) (pda : Pubkey) (slot : Nat)
    (auth : Option Pubkey)
    (hfetch : accounts pk = some a)
    (howner : a.owner = bpf_loader_upgradeable_id)
    (hdec : deserializeLoaderState a.data =
      some (UpgradeableLoaderState.Program pda))
    (hfetch2 : accounts pda = some pa)
    (hdec2 : deserializeLoaderState pa.data =
      some (UpgradeableLoaderState.ProgramData slot auth))
    (hlen : size_of_programdata_metadata ≤ pa.data.length) :
    (get_program_size accounts pk).1 =
      Outcome.ok (pa.data.length - size_of_programdata_metadata,
        pa.data.length) := by
  have hne : a.owner ≠ bpf_loader_id := by rw [howner]; decide
  have hnlt : ¬ pa.data.length < size_of_programdata_metadata :=
    Nat.not_lt.mpr hlen
  simp [get_program_size, hfetch, hne, howner, hdec, hfetch2, hdec2, hnlt, loader_ids_ne]

/-- C1 witness: the upgradeable-loader theorem at the concrete fixture
with a 50-byte programdata account (45 metadata + 5 bytecode). -/
theorem get_program_size_upgradeable_witness :
    (get_program_size upg_env pkA).1 =
      Outcome.ok (upg_pd_acct.data.length - size_of_programdata_metadata,
        upg_pd_acct.data.length) :=
  get_program_size_upgradeable upg_env pkA upg_prog_acct upg_pd_acct pkB 0
    none rfl rfl (by decide) rfl (by decide) (by decide)

/-- C1 counterexample: a programdata account whose 13 bytes decode to the
ProgramData variant is shorter than the 45-byte metadata header, and on
it get_program_size does not return any size pair: the unguarded
subtraction underflows and the computation aborts. -/
theorem get_program_size_upgradeable_cex :
    deserializeLoaderState cex_pd_acct.data =
      some (UpgradeableLoaderState.ProgramData 0 none)
    ∧ cex_pd_acct.data.length < size_of_programdata_metadata
    ∧ (get_program_size cex_env pkA).1 = Outcome.underflowAbort
    ∧ Outcome.underflowAbort ≠ Outcome.ok
        (cex_pd_acct.data.length - size_of_programdata_metadata,
          cex_pd_acct.data.length) := by
  exact ⟨by decide, by decide, by decide, by decide⟩

/-- C10: decoding to the ProgramData variant does not guarantee the data
is at least as long as the metadata header: 13 bytes suffice, so the
unguarded subtraction in get_program_size underflows on such an account,
and the bytecode size is well-defined only under the length
precondition. -/
theorem programdata_decode_underflow :
    deserializeLoaderState pd13 = some (UpgradeableLoaderState.ProgramData 0 none)
    ∧ pd13.length < size_of_programdata_metadata
    ∧ ¬ (∀ bs slot auth, deserializeLoaderState bs =
          some (UpgradeableLoaderState.ProgramData slot auth) →
          size_of_programdata_metadata ≤ bs.length)
    ∧ (get_program_size cex_env pkA).1 = Outcome.underflowAbort := by
  refine ⟨by decide, by decide, fun h => ?_, by decide⟩
  exact absurd (h pd13 0 none (by decide)) (by decide)

/-- On an oracle that never finds the transaction, the retry loop runs
its full retry budget: each attempt fails and is followed by the 50 ms
sleep. -/
lemma verifyLoop_all_fail (l : Nat → Option TxDetails) (h : ∀ k, l k = none) :
    ∀ r k, verifyLoop l r k = (none, failTrace r) := by
  intro r
  induction r with
  | zero => intro k; rfl
  | succ n ih => intro k; simp [verifyLoop, h, failTrace, ih (k + 1)]

/-- When the first successful lookup is the k-th attempt (counting from
the s-th), the retry loop stops there: it returns those details after
exactly k + 1 lookups. -/
lemma verifyLoop_first_success (l : Nat → Option TxDetails) :
    ∀ r k s d, k < r → (∀ j, j < k → l (s + j) = none) → l (s + k) = some d →
      (verifyLoop l r s).1 = some d ∧
        (verifyLoop l r s).2.count VEvent.lookupTx = k + 1 := by
  intro r
  induction r with
  | zero => intro k s d hk; omega
  | succ n ih =>
    intro k s d hk hnone hsome
    cases k with
    | zero =>
      have h0 : l s = some d := by simpa using hsome
      exact ⟨by simp [verifyLoop, h0], by simp [verifyLoop, h0, List.count_cons]⟩
    | succ j =>
      have h0 : l s = none := by simpa using hnone 0 (Nat.succ_pos j)
      have hnone' : ∀ j', j' < j → l (s + 1 + j') = none := by
        intro j' hj'
        have h2 := hnone (j' + 1) (by omega)
        have h3 : s + (j' + 1) = s + 1 + j' := by omega
        rw [h3] at h2
        exact h2
      have hsome' : l (s + 1 + j) = some d := by
        have h3 : s + (j + 1) = s + 1 + j := by omega
        rw [h3] at hsome
        exact hsome
      have ih' := ih j (s + 1) d (by omega) hnone' hsome'
      refine ⟨by simp [verifyLoop, h0, ih'.1], ?_⟩
      simp [verifyLoop, h0, List.count_cons, ih'.2]

/-- C2: on a signature whose lookup fails on every attempt, the
confirmation verifier performs exactly 10 lookups with a 50 ms sleep
after each failure (in particular between consecutive attempts), reports
found: false, and on any oracle whose first success is attempt k < 10 it
stops right there with k + 1 lookups. -/
theorem confirmation_verifier_exhausts_ten (lookup : Nat → Option TxDetails)
    (h : ∀ k, lookup k = none) :
    verify lookup = (none,
      [VEvent.lookupTx, VEvent.sleepMs 50, VEvent.lookupTx, VEvent.sleepMs 50,
       VEvent.lookupTx, VEvent.sleepMs 50, VEvent.lookupTx, VEvent.sleepMs 50,
       VEvent.lookupTx, VEvent.sleepMs 50, VEvent.lookupTx, VEvent.sleepMs 50,
       VEvent.lookupTx, VEvent.sleepMs 50, VEvent.lookupTx, VEvent.sleepMs 50,
       VEvent.lookupTx, VEvent.sleepMs 50, VEvent.lookupTx, VEvent.sleepMs 50])
    ∧ confirmationFound lookup = false
    ∧ (verify lookup).2.count VEvent.lookupTx = 10
    ∧ ∀ (l' : Nat → Option TxDetails) (k : Nat) (d : TxDetails), k < 10 →
        (∀ j, j < k → l' j = none) → l' k = some d →
        (verify l').1 = some d ∧ (verify l').2.count VEvent.lookupTx = k + 1 := by
  have hall := verifyLoop_all_fail lookup h 10 0
  refine ⟨?_, ?_, ?_, ?_⟩
  · rw [verify, hall]; rfl
  · rw [confirmationFound, verify, hall]; rfl
  · rw [verify, hall]; rfl
  · intro l' k d hk hnone hsome
    have h' : ∀ j, j < k → l' (0 + j) = none := by
      intro j hj; rw [Nat.zero_add]; exact hnone j hj
    have hs' : l' (0 + k) = some d := by rw [Nat.zero_add]; exact hsome
    exact verifyLoop_first_success l' 10 k 0 d hk h' hs'

/-- C2 witness: the verifier theorem at the never-resolving oracle, and
its early-stop part at an oracle succeeding on the third attempt. -/
theorem confirmation_verifier_exhausts_ten_witness :
    confirmationFound (fun _ => none) = false
    ∧ (verify (fun _ => none)).2.count VEvent.lookupTx = 10
    ∧ (verify (fun k => if k = 2 then some { computeUnitsConsumed := some 3 }
        else none)).2.count VEvent.lookupTx = 3 := by
  have h := confirmation_verifier_exhausts_ten (fun _ => none) (fun _ => rfl)
  exact ⟨h.2.1, h.2.2.1,
    (h.2.2.2 (fun k => if k = 2 then some { computeUnitsConsumed := some 3 }
        else none) 2 { computeUnitsConsumed := some 3 } (by decide)
      (by intro j hj; interval_cases j <;> rfl) rfl).2⟩

/-- A funding-poll iteration breaks out only when the confirmation check
passed and the balance read returned a strictly positive balance, which
is the value broken out with. -/
lemma fundingBreak_some (c : Bool) (o : Option Nat) (b : Nat)
    (h : fundingBreak c o = some b) : 0 < b ∧ o = some b := by
  cases c with
  | false => simp [fundingBreak] at h
  | true =>
    cases o with
    | none => simp [fundingBreak] at h
    | some x =>
      by_cases hx : 0 < x
      · simp [fundingBreak, hx] at h
        subst h
        exact ⟨hx, rfl⟩
      · simp [fundingBreak, hx] at h

/-- Whenever the funding loop returns, the returned balance was read from
the oracle and is strictly positive. -/
lemma fundingLoop_pos (confirm : Nat → Bool) (bal : Nat → Option Nat) :
    ∀ fuel k b, (fundingLoop confirm bal fuel k).1 = some b →
      0 < b ∧ ∃ j, bal j = some b := by
  intro fuel
  induction fuel with
  | zero => intro k b h; simp [fundingLoop] at h
  | succ n ih =>
    intro k b h
    cases hb : fundingBreak (confirm k) (bal k) with
    | some b' =>
      simp [fundingLoop, hb] at h
      subst h
      have hb' := fundingBreak_some (confirm k) (bal k) b' hb
      exact ⟨hb'.1, k, hb'.2⟩
    | none =>
      simp [fundingLoop, hb] at h
      exact ih (k + 1) b h

/-- On oracles under which no iteration ever meets the break condition,
the funding loop is still running after any number of iterations, having
slept 100 ms once per iteration. -/
lemma fundingLoop_never (confirm : Nat → Bool) (bal : Nat → Option Nat)
    (h : ∀ k, fundingBreak (confirm k) (bal k) = none) :
    ∀ fuel k, (fundingLoop confirm bal fuel k).1 = none ∧
      (fundingLoop confirm bal fuel k).2.count (FEvent.sleepMs 100) = fuel := by
  intro fuel
  induction fuel with
  | zero => intro k; exact ⟨rfl, rfl⟩
  | succ n ih =>
    intro k
    have hiter : (fundingIterEvents (confirm k) (bal k)).count
        (FEvent.sleepMs 100) = 0 := by
      cases hc : confirm k <;> simp [fundingIterEvents]
    refine ⟨by simp [fundingLoop, h k, (ih (k + 1)).1], ?_⟩
    simp [fundingLoop, h k, List.count_append, List.count_cons, hiter,
      (ih (k + 1)).2]

/-- C8: the funding poller never returns while the observed balance is
zero: a returned balance was read strictly positive; and when no balance
read ever comes back positive it retries indefinitely, one 100 ms sleep
per iteration, however much fuel it is given (no built-in timeout). -/
theorem funding_poller_positive_balance (confirm : Nat → Bool)
    (bal : Nat → Option Nat) :
    (∀ fuel k b, (fundingLoop confirm bal fuel k).1 = some b →
        0 < b ∧ ∃ j, bal j = some b)
    ∧ ((∀ k, fundingBreak (confirm k) (bal k) = none) →
        ∀ fuel, (fundingLoop confirm bal fuel 0).1 = none ∧
          (fundingLoop confirm bal fuel 0).2.count (FEvent.sleepMs 100) = fuel) :=
  ⟨fun fuel k b h => fundingLoop_pos confirm bal fuel k b h,
   fun hnever fuel => fundingLoop_never confirm bal hnever fuel 0⟩

/-- C8 witness: the funding theorem on oracles whose balance reads are
always zero, run for 5 iterations. -/
theorem funding_poller_positive_balance_witness :
    (fundingLoop (fun _ => true) (fun _ => some 0) 5 0).1 = none
    ∧ (fundingLoop (fun _ => true) (fun _ => some 0) 5 0).2.count
        (FEvent.sleepMs 100) = 5 :=
  (funding_poller_positive_balance (fun _ => true) (fun _ => some 0)).2
    (fun _ => rfl) 5

/-- On an always-succeeding transport the send loop records every index
in order, and its trace is one send per index of the counter transaction
built against the shared blockhash. -/
lemma sendLoop_all_ok (send : TransactionRec → Option Nat) (pk payer : Pubkey)
    (bh : Nat) (h : ∀ tx, (send tx).isSome = true) :
    ∀ n i, ((sendLoop send pk payer bh n i).1.map Prod.fst = List.range' i n)
      ∧ (sendLoop send pk payer bh n i).2 = (List.range' i n).map
          (fun j => BEvent.sendTransaction (mkCounterTx pk payer bh j)) := by
  intro n
  induction n with
  | zero => intro i; exact ⟨rfl, rfl⟩
  | succ m ih =>
    intro i
    have hs := h (mkCounterTx pk payer bh i)
    cases hsend : send (mkCounterTx pk payer bh i) with
    | none => rw [hsend] at hs; simp at hs
    | some sig =>
      constructor
      · simp [sendLoop, hsend, List.range'_succ, (ih (i + 1)).1]
      · simp [sendLoop, hsend, List.range'_succ, (ih (i + 1)).2]

/-- C4: with 100 instructions and an always-succeeding transport the
batch submitter produces exactly 100 submission records whose indices are
0..99 in submission order, each instruction payload is the 8-byte
little-endian encoding of its index, and a single blockhash is fetched
once and carried by every transaction sent. -/
theorem batch_submitter_hundred (bh : Nat) (send : TransactionRec → Option Nat)
    (pk payer : Pubkey) (h : ∀ tx, (send tx).isSome = true) :
    (submitBatch bh send pk payer).1.map Prod.fst = List.range 100
    ∧ (submitBatch bh send pk payer).1.length = 100
    ∧ (submitBatch bh send pk payer).2 = BEvent.getLatestBlockhash ::
        (List.range 100).map
          (fun i => BEvent.sendTransaction (mkCounterTx pk payer bh i))
    ∧ (submitBatch bh send pk payer).2.count BEvent.getLatestBlockhash = 1
    ∧ ∀ i, (mkCounterTx pk payer bh i).instruction.data = u64_to_le_bytes i
        ∧ (u64_to_le_bytes i).length = 8
        ∧ (mkCounterTx pk payer bh i).blockhash = bh := by
  have hmain := sendLoop_all_ok send pk payer bh h 100 0
  have h1 : (submitBatch bh send pk payer).1.map Prod.fst = List.range 100 := by
    rw [List.range_eq_range']
    exact hmain.1
  have h3 : (submitBatch bh send pk payer).2 = BEvent.getLatestBlockhash ::
      (List.range 100).map
        (fun i => BEvent.sendTransaction (mkCounterTx pk payer bh i)) := by
    show BEvent.getLatestBlockhash :: (sendLoop send pk payer bh 100 0).2 = _
    rw [List.range_eq_range', hmain.2]
  refine ⟨h1, ?_, h3, ?_, ?_⟩
  · have := congrArg List.length h1
    simpa using this
  · rw [h3]
    have hz : ((List.range 100).map
        (fun i => BEvent.sendTransaction (mkCounterTx pk payer bh i))).count
          BEvent.getLatestBlockhash = 0 := by
      rw [List.count_eq_zero]
      simp
    simp [List.count_cons, hz]
  · intro i
    refine ⟨rfl, ?_, rfl⟩
    simp [u64_to_le_bytes]

/-- C4 witness: the batch theorem at a transport that accepts every
transaction with signature 0 and blockhash 7. -/
theorem batch_submitter_hundred_witness :
    (submitBatch 7 (fun _ => some 0) pkA pkA).1.map Prod.fst = List.range 100
    ∧ (submitBatch 7 (fun _ => some 0) pkA pkA).2.count
        BEvent.getLatestBlockhash = 1 := by
  have h := batch_submitter_hundred 7 (fun _ => some 0) pkA pkA (fun _ => rfl)
  exact ⟨h.1, h.2.2.2.1⟩

end CuSize
